import Mathlib

/-!
Shallow embedding of the potential-field global planner in
`src/nav2_navfn_planner/src/navfn_planner.cpp`.

Coordinates and potentials are `double` in the source; they are embedded as
exact rationals (`ℚ`), the standard idealisation of floating point for this
kind of grid-geometry code.  Grid indices (`unsigned int`) are embedded as
`ℕ`, with the one wrap-around effect of the `int -> unsigned` cast in
`worldToMap` made explicit (see the comment there).
-/

namespace Navfn

/-- Geometry of the costmap referenced by the planner: origin of cell (0,0),
meters per cell, and the grid dimensions in cells
(`costmap_->getOriginX/Y`, `getResolution`, `getSizeInCellsX/Y`). -/
structure GridInfo where
  originX : ℚ
  originY : ℚ
  resolution : ℚ
  sizeX : ℕ
  sizeY : ℕ
  deriving DecidableEq

/-- A pose, reduced to the planar position that all the planner arithmetic
reads (`geometry_msgs::msg::Pose.position.x/.y`; the orientation components
are copied around but never enter any computation in the file). -/
structure Pose where
  x : ℚ
  y : ℚ
  deriving DecidableEq

/-- Sentinel for an unreached / unreachable potential (`POT_HIGH`, 1.0e10,
from navfn.hpp). -/
def POT_HIGH : ℚ := 10 ^ 10

/-- The exact value of `std::numeric_limits<double>::max()`,
(2 - 2^-52) * 2^1023, returned by `getPointPotential` for off-grid points. -/
def DBL_MAX : ℚ := 2 ^ 1024 - 2 ^ 971

/-- `NavfnPlanner::worldToMap` (navfn_planner.cpp lines 435-458).
Fails when `wx < originX` or `wy < originY`; otherwise rounds
`(w - origin) / resolution` to the nearest integer and succeeds iff the
rounded cell passes the `mx < sizeX && my < sizeY` check.  The source rounds
with `std::round` (half away from zero) and casts through `int` to
`unsigned int`; for the non-negative quotients arising when
`resolution > 0` and the early test has passed, `std::round` agrees with
`round` on `ℚ`, and a negative rounded value would wrap to a huge unsigned
value and fail the size check, which is embedded as the explicit `0 ≤ mx`
conjunct. -/
def worldToMap (g : GridInfo) (wx wy : ℚ) : Option (ℕ × ℕ) :=
  if wx < g.originX ∨ wy < g.originY then
    none
  else
    let mx : ℤ := round ((wx - g.originX) / g.resolution)
    let my : ℤ := round ((wy - g.originY) / g.resolution)
    if 0 ≤ mx ∧ mx < (g.sizeX : ℤ) ∧ 0 ≤ my ∧ my < (g.sizeY : ℤ) then
      some (mx.toNat, my.toNat)
    else
      none

/-- `NavfnPlanner::mapToWorld` (lines 460-465): `w = origin + m * resolution`,
no bounds check. -/
def mapToWorld (g : GridInfo) (mx my : ℚ) : ℚ × ℚ :=
  (g.originX + mx * g.resolution, g.originY + my * g.resolution)

/-- Modelled from the spec: the helper `squared_distance` is declared in
navfn_planner.hpp, which is not under src/; per the spec it is the squared
Euclidean distance between the two positions. -/
def squared_distance (p1 p2 : Pose) : ℚ :=
  (p1.x - p2.x) ^ 2 + (p1.y - p2.y) ^ 2

/-- `NavfnPlanner::getPointPotential` (lines 393-403): off-grid points get
`std::numeric_limits<double>::max()`; on-grid points read the potential
array at linear index `my * nx + mx`.  `potarr` stands for the planner
potential array `planner_->potarr` and `g.sizeX` for `planner_->nx`. -/
def getPointPotential (g : GridInfo) (potarr : ℕ → ℚ) (p : Pose) : ℚ :=
  match worldToMap g p.x p.y with
  | none => DBL_MAX
  | some (mx, my) => potarr (my * g.sizeX + mx)

/-- `NavfnPlanner::smoothApproachToGoal` (lines 276-296).  The source indexes
`plan.poses.end()[-2]` and `plan.poses.back()`, so it is only defined for
plans with at least two poses; the embedding uses `getLastD` with an
arbitrary default, which coincides with the source on such plans (all
theorems below quantify over plans of shape `ps ++ [p1, p2]`). -/
def smoothApproachToGoal (goal : Pose) (plan : List Pose) : List Pose :=
  let second_to_last := plan.dropLast.getLastD ⟨0, 0⟩
  let last_pose := plan.getLastD ⟨0, 0⟩
  if squared_distance last_pose second_to_last >
      squared_distance goal second_to_last then
    plan.dropLast ++ [goal]
  else
    plan ++ [goal]

/-- Structural integer square root: `isqrt n` is the largest `k` with
`k * k ≤ n` (characterised by `isqrt_spec` below).  Used to embed the
`sqrt` / truncating-cast combination in `makePlan` exactly. -/
def isqrt : ℕ → ℕ
  | 0 => 0
  | n + 1 =>
    let r := isqrt n
    if (r + 1) * (r + 1) ≤ n + 1 then r + 1 else r

/-- The point count of `makePlan` (lines 243-248):
`size_t(sqrt(dx^2 + dy^2) / resolution)`.  For `resolution > 0` this equals
`⌊sqrt((dx^2 + dy^2) / resolution^2)⌋ = isqrt ⌊(dx^2 + dy^2) / resolution^2⌋`,
which is the exact form embedded here. -/
def numPoints (resolution : ℚ) (start goal : Pose) : ℕ :=
  isqrt (⌊((goal.x - start.x) ^ 2 + (goal.y - start.y) ^ 2) / resolution ^ 2⌋).toNat

/-- `NavfnPlanner::makePlan` (lines 138-274).  Returns `none` exactly when
the source returns `false` with the plan cleared (start or goal off-grid).
The source then clears the robot cell, resizes the planner, sets the costmap
and runs `calcNavFnAstar`/`calcNavFnDijkstra`, but the only consumer of the
propagated potential — the tolerance neighborhood search of lines 209-241 —
is commented out ("temporarily comment out the original planner"), so
neither the potential array `potarr` nor `tolerance` influences the result;
both parameters are kept to mirror the call signature and record that the
propagation still runs.  What remains is the straight-line interpolation of
lines 243-271 followed by pushing the nominal goal.  When
`number_of_points = 0` the source computes `x_diff`/`y_diff` by dividing by
zero (NaN/inf doubles) but never reads them since the loop body does not
execute; the embedding's `ℚ` division by zero yields 0, equally unread. -/
def makePlan (g : GridInfo) (potarr : ℕ → ℚ) (start goal : Pose)
    (tolerance : ℚ) : Option (List Pose) :=
  match worldToMap g start.x start.y with
  | none => none
  | some _ =>
    match worldToMap g goal.x goal.y with
    | none => none
    | some _ =>
      let number_of_points := numPoints g.resolution start goal
      let x_diff := (goal.x - start.x) / (number_of_points : ℚ)
      let y_diff := (goal.y - start.y) / (number_of_points : ℚ)
      let pts := (List.range number_of_points).map
        (fun i => Pose.mk (start.x + (i : ℚ) * x_diff) (start.y + (i : ℚ) * y_diff))
      some (pts ++ [goal])

/-- `NavfnPlanner::getPlanFromPotential` (lines 330-391).  `cp` stands for
`planner_->calcPath` together with `getPathX/getPathY/getPathLen`.
Modelled from the spec: `NavFn::calcPath` lives in navfn.cpp, which is not
under src/; per the spec it is a step-bounded gradient descent returning the
traced cells (at most the given bound many) or an empty path on failure.
The source passes the bound `costmap_->getSizeInCellsX() * 4`, treats a zero
path length as failure (`return false`, plan left cleared), and otherwise
converts the cells to world coordinates iterating from `len - 1` down to
`0`, i.e. reversing the returned order. -/
def getPlanFromPotential (g : GridInfo) (cp : ℕ → List (ℚ × ℚ))
    (goal : Pose) : Option (List Pose) :=
  match worldToMap g goal.x goal.y with
  | none => none
  | some _ =>
    let path := cp (g.sizeX * 4)
    if path.length = 0 then
      none
    else
      some (path.reverse.map
        (fun c => Pose.mk (mapToWorld g c.1 c.2).1 (mapToWorld g c.1 c.2).2))

/-- The `while (v <= hi) { if (body) return true; v += res; }` loop shape
shared by the two nested loops of `NavfnPlanner::validPointPotential`
(lines 418-431).  The positivity proof for the step is carried as an
argument because it is what makes the C loop — and hence this
recursion — terminate. -/
def whileLE (res : ℚ) (hres : 0 < res) (hi : ℚ) (body : ℚ → Bool)
    (lo : ℚ) : Bool :=
  if h : lo ≤ hi then
    if body lo then true else whileLE res hres hi body (lo + res)
  else
    false
termination_by (⌊(hi - lo) / res⌋ + 1).toNat
decreasing_by
  have hnn : 0 ≤ ⌊(hi - lo) / res⌋ :=
    Int.floor_nonneg.2 (div_nonneg (by linarith) hres.le)
  have e : (hi - (lo + res)) / res = (hi - lo) / res - 1 := by
    field_simp
    ring
  rw [e, Int.floor_sub_one]
  omega

/-- `NavfnPlanner::validPointPotential` (lines 411-433): sweep the square
neighborhood of half-width `t` around `p`, rows from `p.y - t` while
`<= p.y + t`, and within each row columns from `p.x - t` while `<= p.x + t`,
stepping by the costmap resolution; return `true` as soon as a candidate
has potential strictly below `POT_HIGH` (the `return true` inside the inner
loop exits both loops). -/
def validPointPotential (g : GridInfo) (potarr : ℕ → ℚ)
    (hres : 0 < g.resolution) (p : Pose) (t : ℚ) : Bool :=
  whileLE g.resolution hres (p.y + t) (fun py =>
    whileLE g.resolution hres (p.x + t) (fun px =>
      decide (getPointPotential g potarr ⟨px, py⟩ < POT_HIGH)) (p.x - t))
    (p.y - t)

/-- Concrete 10 x 10 grid with origin (0,0) and resolution 1, used by the
concrete-input theorems below. -/
def G0 : GridInfo := ⟨0, 0, 1, 10, 10⟩

/-- Concrete step-bounded path tracer used as a `calcPath` model in the
witness for the step-bound theorem: it returns one cell when given a
positive budget and nothing on a zero budget, so its result length is
always at most the budget. -/
def cpW : ℕ → List (ℚ × ℚ) :=
  fun n => if n = 0 then [] else [(0, 0)]

/-- Potential array in which only the linear cell 0 — cell (0,0) — is
reachable (potential 0) and every other cell holds `POT_HIGH`. -/
def potC1 : ℕ → ℚ :=
  fun idx => if idx = 0 then 0 else POT_HIGH

/-- Potential array in which every cell holds `POT_HIGH`: nothing is
reachable. -/
def potHighAll : ℕ → ℚ :=
  fun _ => POT_HIGH

theorem isqrt_spec (n : ℕ) :
    isqrt n * isqrt n ≤ n ∧ n < (isqrt n + 1) * (isqrt n + 1) := by
  induction n with
  | zero => simp [isqrt]
  | succ n ih =>
    have hr : isqrt (n + 1) =
        if (isqrt n + 1) * (isqrt n + 1) ≤ n + 1 then isqrt n + 1 else isqrt n := by
      rw [isqrt]
    by_cases h : (isqrt n + 1) * (isqrt n + 1) ≤ n + 1
    · rw [hr, if_pos h]
      exact ⟨h, by nlinarith [ih.2]⟩
    · rw [hr, if_neg h]
      exact ⟨Nat.le_succ_of_le ih.1, lt_of_not_le h⟩

theorem worldToMap_eq_some_iff (g : GridInfo) (wx wy : ℚ) (mx my : ℕ) :
    worldToMap g wx wy = some (mx, my) ↔
      g.originX ≤ wx ∧ g.originY ≤ wy ∧
      (mx : ℤ) = round ((wx - g.originX) / g.resolution) ∧
      (my : ℤ) = round ((wy - g.originY) / g.resolution) ∧
      mx < g.sizeX ∧ my < g.sizeY := by
  simp only [worldToMap]
  split_ifs with h1 h2
  · constructor
    · intro h
      exact h.elim
    · rintro ⟨hx, hy, -⟩
      rcases h1 with h | h
      · exact absurd h (not_lt.2 hx)
      · exact absurd h (not_lt.2 hy)
  · push_neg at h1
    obtain ⟨ha, hb, hc, hd⟩ := h2
    simp only [Option.some.injEq, Prod.mk.injEq]
    constructor
    · rintro ⟨hmx, hmy⟩
      exact ⟨h1.1, h1.2, by omega, by omega, by omega, by omega⟩
    · rintro ⟨-, -, hmx, hmy, hxs, hys⟩
      exact ⟨by omega, by omega⟩
  · push_neg at h1
    constructor
    · intro h
      exact h.elim
    · rintro ⟨-, -, hmx, hmy, hxs, hys⟩
      exact h2 ⟨by omega, by omega, by omega, by omega⟩

theorem worldToMap_eq_none_iff (g : GridInfo) (hres : 0 < g.resolution)
    (wx wy : ℚ) :
    worldToMap g wx wy = none ↔
      wx < g.originX ∨ wy < g.originY ∨
      (g.sizeX : ℤ) ≤ round ((wx - g.originX) / g.resolution) ∨
      (g.sizeY : ℤ) ≤ round ((wy - g.originY) / g.resolution) := by
  simp only [worldToMap]
  split_ifs with h1 h2
  · simp only [true_iff]
    tauto
  · push_neg at h1
    obtain ⟨ha, hb, hc, hd⟩ := h2
    constructor
    · intro h
      exact h.elim
    · rintro (h | h | h | h)
      · exact absurd h (not_lt.2 h1.1)
      · exact absurd h (not_lt.2 h1.2)
      · omega
      · omega
  · push_neg at h1
    simp only [true_iff]
    have hx0 : 0 ≤ round ((wx - g.originX) / g.resolution) := by
      rw [round_eq]
      refine Int.floor_nonneg.2 ?_
      have h0 : 0 ≤ (wx - g.originX) / g.resolution :=
        div_nonneg (by linarith [h1.1]) hres.le
      linarith
    have hy0 : 0 ≤ round ((wy - g.originY) / g.resolution) := by
      rw [round_eq]
      refine Int.floor_nonneg.2 ?_
      have h0 : 0 ≤ (wy - g.originY) / g.resolution :=
        div_nonneg (by linarith [h1.2]) hres.le
      linarith
    have hd : (g.sizeX : ℤ) ≤ round ((wx - g.originX) / g.resolution) ∨
        (g.sizeY : ℤ) ≤ round ((wy - g.originY) / g.resolution) := by
      by_contra hcon
      push_neg at hcon
      exact h2 ⟨hx0, hcon.1, hy0, hcon.2⟩
    tauto

theorem whileLE_unfold (res : ℚ) (hres : 0 < res) (hi : ℚ) (body : ℚ → Bool)
    (lo : ℚ) :
    whileLE res hres hi body lo =
      if lo ≤ hi then
        (if body lo then true else whileLE res hres hi body (lo + res))
      else false := by
  rw [whileLE]
  by_cases h : lo ≤ hi
  · rw [dif_pos h, if_pos h]
  · rw [dif_neg h, if_neg h]

theorem whileLE_eq_true_iff (res : ℚ) (hres : 0 < res) (hi : ℚ)
    (body : ℚ → Bool) (lo : ℚ) :
    whileLE res hres hi body lo = true ↔
      ∃ k : ℕ, lo + (k : ℚ) * res ≤ hi ∧ body (lo + (k : ℚ) * res) = true := by
  generalize hm : (⌊(hi - lo) / res⌋ + 1).toNat = n
  induction n generalizing lo with
  | zero =>
    have hlt : hi < lo := by
      by_contra hle
      push_neg at hle
      have h0 : 0 ≤ ⌊(hi - lo) / res⌋ :=
        Int.floor_nonneg.2 (div_nonneg (by linarith) hres.le)
      omega
    rw [whileLE_unfold, if_neg (not_le.2 hlt)]
    constructor
    · intro h
      exact Bool.noConfusion h
    · rintro ⟨k, hk, -⟩
      have hq : (0 : ℚ) ≤ (k : ℚ) * res := by positivity
      linarith
  | succ n ih =>
    by_cases hle : lo ≤ hi
    · rw [whileLE_unfold, if_pos hle]
      by_cases hbody : body lo = true
      · rw [if_pos hbody]
        constructor
        · intro _
          refine ⟨0, ?_, ?_⟩
          · push_cast
            linarith
          · have e0 : lo + ((0 : ℕ) : ℚ) * res = lo := by push_cast; ring
            rw [e0]
            exact hbody
        · intro _
          rfl
      · rw [if_neg hbody]
        have hmeas : (⌊(hi - (lo + res)) / res⌋ + 1).toNat = n := by
          have e : (hi - (lo + res)) / res = (hi - lo) / res - 1 := by
            field_simp
            ring
          have h0 : 0 ≤ ⌊(hi - lo) / res⌋ :=
            Int.floor_nonneg.2 (div_nonneg (by linarith) hres.le)
          rw [e, Int.floor_sub_one]
          omega
        rw [ih (lo + res) hmeas]
        constructor
        · rintro ⟨k, hk, hp⟩
          have e : lo + ((k + 1 : ℕ) : ℚ) * res = lo + res + (k : ℚ) * res := by
            push_cast
            ring
          refine ⟨k + 1, ?_, ?_⟩
          · rw [e]
            exact hk
          · rw [e]
            exact hp
        · rintro ⟨k, hk, hp⟩
          cases k with
          | zero =>
            exfalso
            have e0 : lo + ((0 : ℕ) : ℚ) * res = lo := by push_cast; ring
            rw [e0] at hp
            exact hbody hp
          | succ k =>
            have e : lo + ((k + 1 : ℕ) : ℚ) * res = lo + res + (k : ℚ) * res := by
              push_cast
              ring
            rw [e] at hk hp
            exact ⟨k, hk, hp⟩
    · rw [whileLE_unfold, if_neg hle]
      constructor
      · intro h
        exact Bool.noConfusion h
      · rintro ⟨k, hk, -⟩
        have hq : (0 : ℚ) ≤ (k : ℚ) * res := by positivity
        have : lo ≤ hi := by linarith
        exact absurd this hle

theorem G0_res_pos : (0 : ℚ) < G0.resolution := by
  norm_num [G0]

theorem wtm_G0_00 : worldToMap G0 0 0 = some (0, 0) := by
  rw [worldToMap_eq_some_iff]
  norm_num [G0, round_eq]

theorem wtm_G0_10 : worldToMap G0 1 0 = some (1, 0) := by
  rw [worldToMap_eq_some_iff]
  norm_num [G0, round_eq]

theorem wtm_G0_20 : worldToMap G0 2 0 = some (2, 0) := by
  rw [worldToMap_eq_some_iff]
  norm_num [G0, round_eq]

theorem wtm_G0_11 : worldToMap G0 1 1 = some (1, 1) := by
  rw [worldToMap_eq_some_iff]
  norm_num [G0, round_eq]

theorem wtm_G0_half : worldToMap G0 (1/2) (1/2) = some (1, 1) := by
  rw [worldToMap_eq_some_iff]
  norm_num [G0, round_eq]

theorem wtm_G0_sevenfifths : worldToMap G0 (7/5) (7/5) = some (1, 1) := by
  rw [worldToMap_eq_some_iff]
  norm_num [G0, round_eq]

theorem wtm_G0_half_sf : worldToMap G0 (1/2) (7/5) = some (1, 1) := by
  rw [worldToMap_eq_some_iff]
  norm_num [G0, round_eq]

theorem wtm_G0_offgrid : worldToMap G0 (-1) 0 = none := by
  rw [worldToMap_eq_none_iff G0 G0_res_pos]
  norm_num [G0]

/-- Once both endpoint conversions succeed, `makePlan` returns exactly the
straight-line interpolation followed by the nominal goal. -/
theorem makePlan_eq (g : GridInfo) (potarr : ℕ → ℚ) (start goal : Pose)
    (tolerance : ℚ) (cs cg : ℕ × ℕ)
    (hs : worldToMap g start.x start.y = some cs)
    (hg : worldToMap g goal.x goal.y = some cg) :
    makePlan g potarr start goal tolerance =
      some (((List.range (numPoints g.resolution start goal)).map
        (fun i => Pose.mk
          (start.x + (i : ℚ) *
            ((goal.x - start.x) / (numPoints g.resolution start goal : ℚ)))
          (start.y + (i : ℚ) *
            ((goal.y - start.y) / (numPoints g.resolution start goal : ℚ))))) ++
        [goal]) := by
  simp only [makePlan, hs, hg]

/-- For a successful conversion, the grid coordinate is the rounding of the
scaled offset, so converting back moves by at most half a cell. -/
theorem origin_add_round_abs (res : ℚ) (hres : 0 < res) (w o : ℚ) (m : ℕ)
    (hm : (m : ℤ) = round ((w - o) / res)) :
    |o + (m : ℚ) * res - w| ≤ res / 2 := by
  have hcast : (m : ℚ) = ((round ((w - o) / res) : ℤ) : ℚ) := by
    exact_mod_cast hm
  have hqm : (w - o) / res * res = w - o := div_mul_cancel₀ _ hres.ne'
  have e : o + (m : ℚ) * res - w =
      (((round ((w - o) / res) : ℤ) : ℚ) - (w - o) / res) * res := by
    rw [hcast, sub_mul, hqm]
    ring
  have habs : |((round ((w - o) / res) : ℤ) : ℚ) - (w - o) / res| ≤ 1 / 2 := by
    have h0 := abs_sub_round ((w - o) / res)
    rwa [abs_sub_comm] at h0
  calc |o + (m : ℚ) * res - w|
      = |((round ((w - o) / res) : ℤ) : ℚ) - (w - o) / res| * |res| := by
        rw [e, abs_mul]
    _ ≤ 1 / 2 * |res| := by
        exact mul_le_mul_of_nonneg_right habs (abs_nonneg res)
    _ = res / 2 := by
        rw [abs_of_pos hres]
        ring

/-- Claim C5: for every world point (x, y), `worldToMap` computes
gx = round((x - origin.x) / resolution) and
gy = round((y - origin.y) / resolution), and it fails exactly when
x < origin.x, or y < origin.y, or the rounded cell is outside the grid
dimensions; on success it returns exactly the rounded cell, never a
clamped one. -/
theorem worldToMap_round_and_bounds (g : GridInfo) (hres : 0 < g.resolution)
    (wx wy : ℚ) :
    (worldToMap g wx wy = none ↔
      wx < g.originX ∨ wy < g.originY ∨
      (g.sizeX : ℤ) ≤ round ((wx - g.originX) / g.resolution) ∨
      (g.sizeY : ℤ) ≤ round ((wy - g.originY) / g.resolution)) ∧
    (∀ mx my : ℕ, worldToMap g wx wy = some (mx, my) →
      (mx : ℤ) = round ((wx - g.originX) / g.resolution) ∧
      (my : ℤ) = round ((wy - g.originY) / g.resolution)) := by
  refine ⟨worldToMap_eq_none_iff g hres wx wy, ?_⟩
  intro mx my h
  have hc := (worldToMap_eq_some_iff g wx wy mx my).1 h
  exact ⟨hc.2.2.1, hc.2.2.2.1⟩

/-- Witness for `worldToMap_round_and_bounds`: grid `G0`, point (1/2, 7/5),
which converts to cell (1, 1) = (round(1/2), round(7/5)). -/
theorem worldToMap_round_and_bounds_witness :
    (0 : ℚ) < G0.resolution ∧
    worldToMap G0 (1/2) (7/5) = some (1, 1) ∧
    ((1 : ℤ) = round (((1 : ℚ)/2 - G0.originX) / G0.resolution) ∧
     (1 : ℤ) = round (((7 : ℚ)/5 - G0.originY) / G0.resolution)) :=
  ⟨G0_res_pos, wtm_G0_half_sf,
    (worldToMap_round_and_bounds G0 G0_res_pos (1/2) (7/5)).2 1 1 wtm_G0_half_sf⟩

/-- Claim C6: for every in-bounds world point, converting to a grid cell and
back via `mapToWorld` reproduces the point to within half a resolution in
each coordinate. -/
theorem mapToWorld_worldToMap_round_trip (g : GridInfo)
    (hres : 0 < g.resolution) (wx wy : ℚ) (mx my : ℕ)
    (h : worldToMap g wx wy = some (mx, my)) :
    |(mapToWorld g (mx : ℚ) (my : ℚ)).1 - wx| ≤ g.resolution / 2 ∧
    |(mapToWorld g (mx : ℚ) (my : ℚ)).2 - wy| ≤ g.resolution / 2 := by
  obtain ⟨-, -, hmx, hmy, -, -⟩ := (worldToMap_eq_some_iff g wx wy mx my).1 h
  constructor
  · simpa [mapToWorld] using origin_add_round_abs g.resolution hres wx g.originX mx hmx
  · simpa [mapToWorld] using origin_add_round_abs g.resolution hres wy g.originY my hmy

/-- Witness for `mapToWorld_worldToMap_round_trip`: grid `G0`, point
(1/2, 7/5), cell (1, 1); the round trip lands on (1, 1), within 1/2 of the
original point in each coordinate. -/
theorem mapToWorld_worldToMap_round_trip_witness :
    |(mapToWorld G0 ((1 : ℕ) : ℚ) ((1 : ℕ) : ℚ)).1 - 1/2| ≤ G0.resolution / 2 ∧
    |(mapToWorld G0 ((1 : ℕ) : ℚ) ((1 : ℕ) : ℚ)).2 - 7/5| ≤ G0.resolution / 2 :=
  mapToWorld_worldToMap_round_trip G0 G0_res_pos (1/2) (7/5) 1 1 wtm_G0_half_sf

/-- Claim C10: for every world point that fails the world-to-grid
conversion, `getPointPotential` returns the maximum finite double value —
which is at least `POT_HIGH` — instead of reading the potential array, so
off-grid candidates are uniformly treated as unreachable (for any contents
of the potential array). -/
theorem getPointPotential_offgrid_max (g : GridInfo) (potarr : ℕ → ℚ)
    (p : Pose) (h : worldToMap g p.x p.y = none) :
    getPointPotential g potarr p = DBL_MAX ∧ POT_HIGH ≤ DBL_MAX ∧
    ¬ getPointPotential g potarr p < POT_HIGH := by
  have hval : getPointPotential g potarr p = DBL_MAX := by
    simp only [getPointPotential, h]
  have hle : POT_HIGH ≤ DBL_MAX := by
    norm_num [POT_HIGH, DBL_MAX]
  refine ⟨hval, hle, ?_⟩
  rw [hval]
  exact not_lt.2 hle

/-- Witness for `getPointPotential_offgrid_max`: the point (-1, 0) is left
of the `G0` origin, so the conversion fails and the potential query returns
`DBL_MAX` no matter what the array holds. -/
theorem getPointPotential_offgrid_max_witness :
    getPointPotential G0 (fun _ => 0) ⟨-1, 0⟩ = DBL_MAX ∧
    POT_HIGH ≤ DBL_MAX ∧
    ¬ getPointPotential G0 (fun _ => 0) ⟨-1, 0⟩ < POT_HIGH :=
  getPointPotential_offgrid_max G0 (fun _ => 0) ⟨-1, 0⟩ wtm_G0_offgrid

/-- Claim C9: for every world point p and tolerance t ≥ 0,
`validPointPotential` returns true exactly when some candidate of the
square sweep — rows from p.y - t while ≤ p.y + t, columns from p.x - t
while ≤ p.x + t, stepping by the resolution — has potential strictly
below `POT_HIGH`. -/
theorem validPointPotential_iff_neighborhood (g : GridInfo) (potarr : ℕ → ℚ)
    (hres : 0 < g.resolution) (p : Pose) (t : ℚ) (ht : 0 ≤ t) :
    validPointPotential g potarr hres p t = true ↔
      ∃ j k : ℕ,
        p.y - t + (j : ℚ) * g.resolution ≤ p.y + t ∧
        p.x - t + (k : ℚ) * g.resolution ≤ p.x + t ∧
        getPointPotential g potarr
          ⟨p.x - t + (k : ℚ) * g.resolution,
           p.y - t + (j : ℚ) * g.resolution⟩ < POT_HIGH := by
  unfold validPointPotential
  rw [whileLE_eq_true_iff]
  constructor
  · rintro ⟨j, hj, hrow⟩
    rw [whileLE_eq_true_iff] at hrow
    obtain ⟨k, hk, hp⟩ := hrow
    rw [decide_eq_true_eq] at hp
    exact ⟨j, k, hj, hk, hp⟩
  · rintro ⟨j, k, hj, hk, hp⟩
    refine ⟨j, hj, ?_⟩
    rw [whileLE_eq_true_iff]
    exact ⟨k, hk, decide_eq_true hp⟩

/-- Witness for `validPointPotential_iff_neighborhood`: grid `G0`, the
point (5, 5), tolerance 1, and a potential array that is 0 everywhere. -/
theorem validPointPotential_iff_neighborhood_witness :
    (0 : ℚ) < G0.resolution ∧ (0 : ℚ) ≤ 1 ∧
    (validPointPotential G0 (fun _ => 0) G0_res_pos ⟨5, 5⟩ 1 = true ↔
      ∃ j k : ℕ,
        (5 : ℚ) - 1 + (j : ℚ) * G0.resolution ≤ 5 + 1 ∧
        (5 : ℚ) - 1 + (k : ℚ) * G0.resolution ≤ 5 + 1 ∧
        getPointPotential G0 (fun _ => 0)
          ⟨(5 : ℚ) - 1 + (k : ℚ) * G0.resolution,
           (5 : ℚ) - 1 + (j : ℚ) * G0.resolution⟩ < POT_HIGH) :=
  ⟨G0_res_pos, by norm_num,
    validPointPotential_iff_neighborhood G0 (fun _ => 0) G0_res_pos ⟨5, 5⟩ 1
      (by norm_num)⟩

/-- On a plan of shape ps ++ [p1, p2] — second-to-last waypoint p1, last
waypoint p2 — smoothing either replaces p2 by the goal (when p2 is strictly
further from p1 than the goal is) or appends the goal. -/
theorem smoothApproachToGoal_eq (goal p1 p2 : Pose) (ps : List Pose) :
    smoothApproachToGoal goal (ps ++ [p1, p2]) =
      if squared_distance p2 p1 > squared_distance goal p1 then
        ps ++ [p1, goal]
      else
        ps ++ [p1, p2, goal] := by
  have hsplit : ps ++ [p1, p2] = (ps ++ [p1]) ++ [p2] := by simp
  simp only [smoothApproachToGoal, hsplit, List.dropLast_concat,
    List.getLastD_concat]
  split_ifs with h
  · simp
  · simp

/-- Claim C3 (amended): `smoothApproachToGoal` compares the distance from
the last-but-one waypoint to (a) the current last waypoint and (b) the
true goal; it replaces the last waypoint with the true goal when (b) < (a),
and otherwise — including the tie (b) = (a) — appends the true goal as an
additional final waypoint. -/
theorem smoothApproachToGoal_snap_or_append (goal p1 p2 : Pose)
    (ps : List Pose) :
    (squared_distance goal p1 < squared_distance p2 p1 →
      smoothApproachToGoal goal (ps ++ [p1, p2]) = ps ++ [p1, goal]) ∧
    (squared_distance p2 p1 ≤ squared_distance goal p1 →
      smoothApproachToGoal goal (ps ++ [p1, p2]) = ps ++ [p1, p2, goal]) := by
  rw [smoothApproachToGoal_eq]
  constructor
  · intro h
    rw [if_pos h]
  · intro h
    rw [if_neg (not_lt.2 h)]

/-- Witness for `smoothApproachToGoal_snap_or_append`: path
[(0,0), (2,0)] and goal (1,0); the goal is strictly nearer to the
second-to-last waypoint than the last waypoint is, so the last waypoint is
replaced. -/
theorem smoothApproachToGoal_snap_or_append_witness :
    squared_distance (⟨1, 0⟩ : Pose) ⟨0, 0⟩ <
      squared_distance (⟨2, 0⟩ : Pose) ⟨0, 0⟩ ∧
    smoothApproachToGoal ⟨1, 0⟩ [⟨0, 0⟩, ⟨2, 0⟩] = [⟨0, 0⟩, ⟨1, 0⟩] := by
  have h : squared_distance (⟨1, 0⟩ : Pose) ⟨0, 0⟩ <
      squared_distance (⟨2, 0⟩ : Pose) ⟨0, 0⟩ := by
    norm_num [squared_distance]
  exact ⟨h, (smoothApproachToGoal_snap_or_append ⟨1, 0⟩ ⟨0, 0⟩ ⟨2, 0⟩ []).1 h⟩

/-- Counterexample to claim C3 as stated: in the tie case (b) = (a) — path
[(0,0), (1,0)], goal (0,1), both at squared distance 1 from the
second-to-last waypoint — the code appends the goal instead of snapping
the last waypoint to it. -/
theorem smoothApproachToGoal_tie_appends :
    squared_distance (⟨0, 1⟩ : Pose) ⟨0, 0⟩ =
      squared_distance (⟨1, 0⟩ : Pose) ⟨0, 0⟩ ∧
    smoothApproachToGoal ⟨0, 1⟩ [⟨0, 0⟩, ⟨1, 0⟩] = [⟨0, 0⟩, ⟨1, 0⟩, ⟨0, 1⟩] ∧
    smoothApproachToGoal ⟨0, 1⟩ [⟨0, 0⟩, ⟨1, 0⟩] ≠ [⟨0, 0⟩, ⟨0, 1⟩] := by
  have heq : squared_distance (⟨0, 1⟩ : Pose) ⟨0, 0⟩ =
      squared_distance (⟨1, 0⟩ : Pose) ⟨0, 0⟩ := by
    norm_num [squared_distance]
  have happ : smoothApproachToGoal ⟨0, 1⟩ [⟨0, 0⟩, ⟨1, 0⟩] =
      [⟨0, 0⟩, ⟨1, 0⟩, ⟨0, 1⟩] := by
    have he := smoothApproachToGoal_eq ⟨0, 1⟩ ⟨0, 0⟩ ⟨1, 0⟩ []
    rw [if_neg (by rw [← heq]; exact lt_irrefl _)] at he
    simpa using he
  refine ⟨heq, happ, ?_⟩
  rw [happ]
  intro hcon
  simp at hcon

/-- Claim C4 (amended): applying `smoothApproachToGoal` to a path whose
terminal waypoint already equals the true goal appends a duplicate copy of
the goal — the terminal position is still the goal, but the path grows, so
smoothing is not a no-op. -/
theorem smoothApproachToGoal_at_goal_appends (goal p1 : Pose)
    (ps : List Pose) :
    smoothApproachToGoal goal (ps ++ [p1, goal]) = ps ++ [p1, goal, goal] := by
  rw [smoothApproachToGoal_eq]
  rw [if_neg (lt_irrefl _)]

/-- Counterexample to claim C4 as stated: the path [(0,0), (1,0)] already
ends at the goal (1,0), yet smoothing appends a duplicate goal waypoint
instead of leaving the path unchanged. -/
theorem smoothApproachToGoal_not_idempotent :
    smoothApproachToGoal ⟨1, 0⟩ [⟨0, 0⟩, ⟨1, 0⟩] = [⟨0, 0⟩, ⟨1, 0⟩, ⟨1, 0⟩] ∧
    smoothApproachToGoal ⟨1, 0⟩ [⟨0, 0⟩, ⟨1, 0⟩] ≠ [⟨0, 0⟩, ⟨1, 0⟩] := by
  have happ : smoothApproachToGoal ⟨1, 0⟩ [⟨0, 0⟩, ⟨1, 0⟩] =
      [⟨0, 0⟩, ⟨1, 0⟩, ⟨1, 0⟩] := by
    have he := smoothApproachToGoal_eq ⟨1, 0⟩ ⟨0, 0⟩ ⟨1, 0⟩ []
    rw [if_neg (lt_irrefl _)] at he
    simpa using he
  refine ⟨happ, ?_⟩
  rw [happ]
  intro hcon
  simp at hcon

theorem numPoints_G0_01 : numPoints G0.resolution ⟨0, 0⟩ ⟨1, 0⟩ = 1 := by
  simp only [numPoints]
  norm_num [G0]
  decide

theorem numPoints_G0_02 : numPoints G0.resolution ⟨0, 0⟩ ⟨2, 0⟩ = 2 := by
  simp only [numPoints]
  norm_num [G0]
  decide

theorem numPoints_G0_halfsf :
    numPoints G0.resolution ⟨1/2, 1/2⟩ ⟨7/5, 7/5⟩ = 1 := by
  simp only [numPoints]
  norm_num [G0]
  decide

/-- Claim C1 (code bug): the nominal goal cell (1,0) is unreachable
(potential exactly `POT_HIGH`) while the cell (0,0) is a reachable
candidate within the tolerance 2 neighborhood, yet `makePlan` performs no
neighborhood search at all — the lines 209-241 implementing it are
commented out — and returns the straight-line interpolation that ends at
the unreachable nominal goal itself. -/
theorem makePlan_ignores_unreachable_goal :
    getPointPotential G0 potC1 ⟨1, 0⟩ = POT_HIGH ∧
    getPointPotential G0 potC1 ⟨0, 0⟩ < POT_HIGH ∧
    makePlan G0 potC1 ⟨0, 0⟩ ⟨1, 0⟩ 2 = some [⟨0, 0⟩, ⟨1, 0⟩] := by
  refine ⟨?_, ?_, ?_⟩
  · simp only [getPointPotential, wtm_G0_10]
    norm_num [potC1, G0]
  · simp only [getPointPotential, wtm_G0_00]
    norm_num [potC1, G0, POT_HIGH]
  · rw [makePlan_eq G0 potC1 ⟨0, 0⟩ ⟨1, 0⟩ 2 (0, 0) (1, 0) wtm_G0_00 wtm_G0_10]
    rw [numPoints_G0_01]
    norm_num [List.range_succ, Pose.mk.injEq]

/-- Claim C2 (code bug): with every cell of the potential array at
`POT_HIGH` no point whatsoever — in particular no candidate in any
tolerance neighborhood of the goal (2,0) — has potential below `POT_HIGH`,
yet `makePlan` still reports success with a nonempty straight-line path
instead of failing with an empty one. -/
theorem makePlan_unreachable_goal_still_plans :
    (∀ q : Pose, ¬ getPointPotential G0 potHighAll q < POT_HIGH) ∧
    makePlan G0 potHighAll ⟨0, 0⟩ ⟨2, 0⟩ 1 = some [⟨0, 0⟩, ⟨1, 0⟩, ⟨2, 0⟩] ∧
    ([(⟨0, 0⟩ : Pose), ⟨1, 0⟩, ⟨2, 0⟩] : List Pose) ≠ [] := by
  refine ⟨?_, ?_, by simp⟩
  · intro q
    unfold getPointPotential
    rcases hw : worldToMap G0 q.x q.y with - | c
    · simp only [hw]
      norm_num [DBL_MAX, POT_HIGH]
    · simp only [hw]
      simp [potHighAll]
  · rw [makePlan_eq G0 potHighAll ⟨0, 0⟩ ⟨2, 0⟩ 1 (0, 0) (2, 0)
      wtm_G0_00 wtm_G0_20]
    rw [numPoints_G0_02]
    norm_num [List.range_succ, Pose.mk.injEq]

/-- Claim C8 (amended): for on-grid start and goal mapping to the same
cell, `makePlan` always succeeds with a nonempty path ending at the goal;
when moreover the start and goal poses coincide — the case in which the
per-step increments are divisions by a zero point count — the path is the
single waypoint [goal]. -/
theorem makePlan_same_cell_succeeds (g : GridInfo) (potarr : ℕ → ℚ)
    (start goal : Pose) (tolerance : ℚ) (c : ℕ × ℕ)
    (hs : worldToMap g start.x start.y = some c)
    (hg : worldToMap g goal.x goal.y = some c) :
    (∃ plan, makePlan g potarr start goal tolerance = some plan ∧
      plan ≠ [] ∧ plan.getLastD ⟨0, 0⟩ = goal) ∧
    (start = goal → makePlan g potarr start goal tolerance = some [goal]) := by
  constructor
  · refine ⟨_, makePlan_eq g potarr start goal tolerance c c hs hg, by simp, ?_⟩
    exact List.getLastD_concat ..
  · intro hsg
    subst hsg
    have hz : ((start.x - start.x) ^ 2 + (start.y - start.y) ^ 2) /
        g.resolution ^ 2 = 0 := by
      simp
    have hnum : numPoints g.resolution start start = 0 := by
      simp only [numPoints, hz, Int.floor_zero, Int.toNat_zero]
      rfl
    rw [makePlan_eq g potarr start start tolerance c c hs hs, hnum]
    simp

/-- Witness for `makePlan_same_cell_succeeds`: start and goal both (1,1)
on `G0`, mapping to cell (1,1); the plan is the single waypoint (1,1). -/
theorem makePlan_same_cell_succeeds_witness :
    (∃ plan, makePlan G0 (fun _ => 0) ⟨1, 1⟩ ⟨1, 1⟩ 0 = some plan ∧
      plan ≠ [] ∧ plan.getLastD ⟨0, 0⟩ = ⟨1, 1⟩) ∧
    makePlan G0 (fun _ => 0) ⟨1, 1⟩ ⟨1, 1⟩ 0 = some [⟨1, 1⟩] := by
  have h := makePlan_same_cell_succeeds G0 (fun _ => 0) ⟨1, 1⟩ ⟨1, 1⟩ 0 (1, 1)
    wtm_G0_11 wtm_G0_11
  exact ⟨h.1, h.2 rfl⟩

/-- Counterexample to claim C8 as stated: the poses (1/2, 1/2) and
(7/5, 7/5) both map to cell (1,1) of `G0` — the start cell equals the goal
cell, both on-grid — yet `makePlan` produces a two-waypoint path, not a
one-waypoint (or zero-length) one. -/
theorem makePlan_same_cell_two_waypoints :
    worldToMap G0 (1/2) (1/2) = some (1, 1) ∧
    worldToMap G0 (7/5) (7/5) = some (1, 1) ∧
    makePlan G0 (fun _ => 0) ⟨1/2, 1/2⟩ ⟨7/5, 7/5⟩ 0 =
      some [⟨1/2, 1/2⟩, ⟨7/5, 7/5⟩] ∧
    ([(⟨1/2, 1/2⟩ : Pose), ⟨7/5, 7/5⟩] : List Pose).length = 2 := by
  refine ⟨wtm_G0_half, wtm_G0_sevenfifths, ?_, by simp⟩
  rw [makePlan_eq G0 (fun _ => 0) ⟨1/2, 1/2⟩ ⟨7/5, 7/5⟩ 0 (1, 1) (1, 1)
    wtm_G0_half wtm_G0_sevenfifths]
  rw [numPoints_G0_halfsf]
  norm_num [List.range_succ, Pose.mk.injEq]

/-- Claim C7: for any step-bounded path tracer (the result of the bounded
gradient descent never has more cells than its step budget),
`getPlanFromPotential` — which passes the budget `sizeX * 4` — produces a
plan of at most 4 times the larger grid dimension many waypoints, and when
the tracer finds no path within the budget it returns failure with an
empty plan. -/
theorem getPlanFromPotential_step_bound (g : GridInfo)
    (cp : ℕ → List (ℚ × ℚ)) (goal : Pose)
    (hcp : ∀ n, (cp n).length ≤ n) :
    (∀ plan, getPlanFromPotential g cp goal = some plan →
      plan.length ≤ 4 * max g.sizeX g.sizeY) ∧
    (cp (g.sizeX * 4) = [] → getPlanFromPotential g cp goal = none) := by
  constructor
  · intro plan h
    unfold getPlanFromPotential at h
    rcases hw : worldToMap g goal.x goal.y with - | c
    · rw [hw] at h
      exact absurd h (by simp)
    · simp only [hw] at h
      split_ifs at h with hlen
      have hp := Option.some.inj h
      subst hp
      have hb := hcp (g.sizeX * 4)
      have hmax : g.sizeX ≤ max g.sizeX g.sizeY := Nat.le_max_left _ _
      simp only [List.length_map, List.length_reverse]
      omega
  · intro hz
    unfold getPlanFromPotential
    rcases hw : worldToMap g goal.x goal.y with - | c
    · simp only [hw]
    · simp [hw, hz]

/-- Witness for `getPlanFromPotential_step_bound`: grid `G0` and the
one-cell tracer `cpW`; the extracted plan is the single waypoint (0,0),
of length at most 4 times the larger dimension of `G0`. -/
theorem getPlanFromPotential_step_bound_witness :
    getPlanFromPotential G0 cpW ⟨1, 1⟩ = some [⟨0, 0⟩] ∧
    ([(⟨0, 0⟩ : Pose)] : List Pose).length ≤ 4 * max G0.sizeX G0.sizeY := by
  have hcp : ∀ n, (cpW n).length ≤ n := by
    intro n
    by_cases hn : n = 0
    · simp [cpW, hn]
    · simp only [cpW, hn, if_false]
      simp only [List.length_cons, List.length_nil]
      omega
  have hval : getPlanFromPotential G0 cpW ⟨1, 1⟩ = some [⟨0, 0⟩] := by
    simp only [getPlanFromPotential, wtm_G0_11]
    norm_num [cpW, G0, mapToWorld, Pose.mk.injEq]
  exact ⟨hval, (getPlanFromPotential_step_bound G0 cpW ⟨1, 1⟩ hcp).1
    [⟨0, 0⟩] hval⟩

end Navfn
